import Mathlib

/-!
# Verification of the parametric-curve / revolution-surface core

Shallow embedding of the curve-math and meshing modules of the repository
(Bézier evaluation by de Casteljau, B-spline evaluation by Cox-de Boor,
knot insertion, degree elevation, revolution-surface meshing, and the
control-point utilities), together with proofs and refutations of the
spec's claims about them.

Numbers: the JavaScript source computes with IEEE doubles; the embedding
uses exact rationals (`ℚ`) for the 2D curve algorithms and reals (`ℝ`)
where the source takes square roots, sines and cosines.  Division by zero
in `ℚ`/`ℝ` is the Lean convention `x / 0 = 0`; every theorem below only
divides where the source's denominator is provably nonzero, except where
a comment says otherwise.
-/

namespace CG

/-- A plain 2D point `{x, y}` as produced by the curve evaluators. -/
structure Pt2 where
  x : ℚ
  y : ℚ
deriving DecidableEq, Repr

/-- A control point `{x, y, weight}`.  In the source the `weight` field may be
absent; the evaluators read it as `p.weight || 1`, so an absent weight behaves
exactly like weight `1` and we model the field as always present. -/
structure CPoint where
  x : ℚ
  y : ℚ
  weight : ℚ := 1
deriving DecidableEq, Repr

/-- A point in homogeneous coordinates `{wx, wy, w}` used by the rational
de Casteljau algorithm. -/
structure HPoint where
  wx : ℚ
  wy : ℚ
  w : ℚ
deriving DecidableEq, Repr

/-- `const w = p.weight || 1` : JavaScript `||` replaces the falsy value `0`
(and an absent field) by `1`. -/
def wt (p : CPoint) : ℚ := if p.weight = 0 then 1 else p.weight

/-- Lift a control point to homogeneous coordinates `(w*x, w*y, w)`
(`deCasteljau`, src/unnamed/part_002 lines 18-25). -/
def lift (p : CPoint) : HPoint := ⟨p.x * wt p, p.y * wt p, wt p⟩

theorem wt_ne_zero (p : CPoint) : wt p ≠ 0 := by
  unfold wt; split <;> simp_all

/-- One round of the de Casteljau reduction on plain points: replace the
`n` current points by the `n-1` interpolations
`(1-t)*p[i] + t*p[i+1]` (the inner `for` loop of `deCasteljauSimple`). -/
def dcStep (t : ℚ) : List Pt2 → List Pt2
  | p0 :: p1 :: rest =>
      ⟨(1 - t) * p0.x + t * p1.x, (1 - t) * p0.y + t * p1.y⟩ :: dcStep t (p1 :: rest)
  | _ => []

/-- One round of the de Casteljau reduction in homogeneous coordinates
(the inner `for` loop of the rational `deCasteljau`). -/
def dcStep3 (t : ℚ) : List HPoint → List HPoint
  | p0 :: p1 :: rest =>
      ⟨(1 - t) * p0.wx + t * p1.wx, (1 - t) * p0.wy + t * p1.wy,
       (1 - t) * p0.w + t * p1.w⟩ :: dcStep3 t (p1 :: rest)
  | _ => []

/-- `deCasteljauSimple(points, t)` (src/unnamed/part_002 lines 59-81):
non-rational de Casteljau.  The `while (currentPoints.length > 1)` loop
removes one point per round, so on a list of length `n ≥ 1` it runs exactly
`n - 1` rounds and the single survivor is returned; we express the loop as
`n - 1` iterations of `dcStep`. -/
def deCasteljauSimple (points : List CPoint) (t : ℚ) : Option Pt2 :=
  match points with
  | [] => none
  | [p] => some ⟨p.x, p.y⟩
  | ps =>
      let l := ps.map fun p => (⟨p.x, p.y⟩ : Pt2)
      ((dcStep t)^[l.length - 1] l).headD ⟨0, 0⟩

/-- `deCasteljau(points, t)` (src/unnamed/part_002 lines 13-50): rational
de Casteljau in homogeneous coordinates, with the final perspective division
`(wx/w, wy/w)`. -/
def deCasteljau (points : List CPoint) (t : ℚ) : Option Pt2 :=
  match points with
  | [] => none
  | [p] => some ⟨p.x, p.y⟩
  | ps =>
      let l := ps.map lift
      let final := ((dcStep3 t)^[l.length - 1] l).headD ⟨0, 0, 0⟩
      some ⟨final.wx / final.w, final.wy / final.w⟩

/-- `deCasteljau(controlPoints, t)` of src/Ficha01/Questao02/js/main.js
lines 613-631: the Questão 02 copy of the non-rational algorithm, which
operates on plain `{x, y}` points. -/
def deCasteljauQ2 (points : List Pt2) (t : ℚ) : Option Pt2 :=
  match points with
  | [] => none
  | [p] => some ⟨p.x, p.y⟩
  | ps => ((dcStep t)^[ps.length - 1] ps).headD ⟨0, 0⟩

/-- `hasWeights` test of `generateBezierCurve` (src/unnamed/part_002 line 94):
`controlPoints.some(p => p.weight !== undefined && p.weight !== 1)`. -/
def hasWeights (points : List CPoint) : Bool :=
  points.any fun p => p.weight != 1

/-- `generateBezierCurve(controlPoints, steps, useWeights)`
(src/unnamed/part_002 lines 90-108): samples `t = i/steps` for
`i = 0 .. steps`, selecting the rational algorithm only when
`hasWeights && useWeights`; a `null` sample is skipped (`if (point)`),
which `filterMap id` performs. -/
def generateBezierCurve (points : List CPoint) (steps : ℕ) (useWeights : Bool) :
    List Pt2 :=
  if points.length < 2 then []
  else
    let alg := if hasWeights points && useWeights then deCasteljau else deCasteljauSimple
    ((List.range (steps + 1)).map fun (i : ℕ) =>
        alg points ((i : ℚ) / (steps : ℚ))).filterMap id

/-- `generateBezierCurve(controlPoints, resolution)` of
src/Ficha01/Questao02/js/main.js lines 639-655.  The source loop is
`for (let t = 0; t <= 1; t += 1/resolution)`; in exact arithmetic it visits
exactly `t = i/resolution` for `i = 0 .. resolution`, after which the code
appends one more sample at `t = 1` ("Garante o ponto final"). -/
def generateBezierCurveQ2 (points : List Pt2) (resolution : ℕ) : List Pt2 :=
  if points.length < 2 then []
  else
    ((List.range (resolution + 1)).map fun (i : ℕ) =>
        deCasteljauQ2 points ((i : ℚ) / (resolution : ℚ))).filterMap id
      ++ (deCasteljauQ2 points 1).toList

/-- Array indexing `knots[i]` on a rational list; all theorems below use it
only in bounds, where it agrees with the JavaScript access. -/
def kn (knots : List ℚ) (i : ℕ) : ℚ := knots.getD i 0

/-- `generateKnotVector(n, degree)` (src/unnamed/part_001 lines 12-28):
clamped-uniform knot vector of length `n + degree + 1`. -/
def generateKnotVector (n degree : ℕ) : List ℚ :=
  (List.range (n + degree + 1)).map fun i =>
    if i ≤ degree then 0
    else if n ≤ i then (n : ℚ) - (degree : ℚ)
    else (i : ℚ) - (degree : ℚ)

/-- `generateKnotVector(n, degree)` of src/Ficha01/Questao02/js/main.js
lines 663-685: `degree+1` zeros, then the internal knots
`1 .. numInternal-1`, then `degree+1` copies of `numInternal = n - degree`. -/
def generateKnotVectorQ2 (n degree : ℕ) : List ℚ :=
  let numInternal : ℤ := (n : ℤ) - (degree : ℤ)
  List.replicate (degree + 1) (0 : ℚ)
    ++ (List.range' 1 (numInternal - 1).toNat).map (fun (i : ℕ) => (i : ℚ))
    ++ List.replicate (degree + 1) ((numInternal : ℚ))

/-- `bSplineBasis(i, degree, t, knots)` (src/unnamed/part_001 lines 38-67,
duplicated in src/Ficha01/Questao02/js/main.js lines 695-720): Cox-de Boor
recursion.  At degree 0 the source first tests the terminal special case
`i === knots.length - degree - 2 && Math.abs(t - knots[i+1]) < 1e-10`
(with `degree === 0`, so the index is `knots.length - 2`), then the
half-open span test; a recursive term is dropped when its knot-span
denominator is exactly zero. -/
def bSplineBasis (i : ℕ) (degree : ℕ) (t : ℚ) (knots : List ℚ) : ℚ :=
  match degree with
  | 0 =>
      if i + 2 = knots.length ∧ |t - kn knots (i + 1)| < 1 / 10 ^ 10 then 1
      else if kn knots i ≤ t ∧ t < kn knots (i + 1) then 1
      else 0
  | p + 1 =>
      let denomLeft := kn knots (i + p + 1) - kn knots i
      let left :=
        if denomLeft ≠ 0 then (t - kn knots i) / denomLeft * bSplineBasis i p t knots
        else 0
      let denomRight := kn knots (i + p + 2) - kn knots (i + 1)
      let right :=
        if denomRight ≠ 0 then
          (kn knots (i + p + 2) - t) / denomRight * bSplineBasis (i + 1) p t knots
        else 0
      left + right

/-- `evaluateBSpline(controlPoints, t, degree, knots)` (src/unnamed/part_001
lines 77-97): clamps `t` to `[knots[degree], knots[n]]` and returns the
basis-weighted sum of the control points. -/
def evaluateBSpline (controlPoints : List Pt2) (t : ℚ) (degree : ℕ)
    (knots : List ℚ) : Option Pt2 :=
  match controlPoints with
  | [] => none
  | _ =>
      let n := controlPoints.length
      let tMin := kn knots degree
      let tMax := kn knots n
      let tClamped := max tMin (min tMax t)
      some ⟨((List.range n).map fun i =>
               bSplineBasis i degree tClamped knots * (controlPoints.getD i ⟨0, 0⟩).x).sum,
            ((List.range n).map fun i =>
               bSplineBasis i degree tClamped knots * (controlPoints.getD i ⟨0, 0⟩).y).sum⟩

/-- The `while (k < knots.length - 1 && knots[k] < newKnot) k++` scan of
`insertKnot` (src/unnamed/part_001 lines 252-255), starting from `k`. -/
def findInsertPos (knots : List ℚ) (newKnot : ℚ) (k : ℕ) : ℕ :=
  if h : k < knots.length - 1 ∧ kn knots k < newKnot then
    findInsertPos knots newKnot (k + 1)
  else k
termination_by knots.length - k
decreasing_by omega

/-- `insertKnot(controlPoints, knots, degree, newKnot)` (src/unnamed/part_001
lines 248-281).  The index comparisons `i <= k - degree - 1` and `i > k - 1`
are JavaScript integer arithmetic, so they are taken in `ℤ`.  The blend has
no zero-denominator guard in the source; the theorems below only use inputs
whose denominators are nonzero. -/
def insertKnot (controlPoints : List Pt2) (knots : List ℚ) (degree : ℕ)
    (newKnot : ℚ) : List Pt2 × List ℚ :=
  let n := controlPoints.length
  let k := findInsertPos knots newKnot degree
  let newControlPoints := (List.range n).map fun (i : ℕ) =>
    if (i : ℤ) ≤ (k : ℤ) - (degree : ℤ) - 1 then controlPoints.getD i ⟨0, 0⟩
    else if (i : ℤ) > (k : ℤ) - 1 then controlPoints.getD i ⟨0, 0⟩
    else
      let alpha := (newKnot - kn knots i) / (kn knots (i + degree) - kn knots i)
      ⟨(1 - alpha) * (controlPoints.getD (i - 1) ⟨0, 0⟩).x
         + alpha * (controlPoints.getD i ⟨0, 0⟩).x,
       (1 - alpha) * (controlPoints.getD (i - 1) ⟨0, 0⟩).y
         + alpha * (controlPoints.getD i ⟨0, 0⟩).y⟩
  let newKnots := knots.take k ++ newKnot :: knots.drop k
  (newControlPoints, newKnots)

/-- `elevateBezierDegree(points)` (src/unnamed/part_002 lines 185-208):
keep the first point, blend `alpha*p[i-1] + (1-alpha)*p[i]` with
`alpha = i/(n+1)` for `i = 1 .. n`, keep the last point.  Input of fewer
than 2 points is returned unchanged. -/
def elevateBezierDegree (points : List CPoint) : List CPoint :=
  if points.length < 2 then points
  else
    let n := points.length - 1
    points.getD 0 ⟨0, 0, 1⟩
      :: ((List.range' 1 n).map fun (i : ℕ) =>
            let alpha : ℚ := (i : ℚ) / ((n : ℚ) + 1)
            { x := alpha * (points.getD (i - 1) ⟨0, 0, 1⟩).x
                     + (1 - alpha) * (points.getD i ⟨0, 0, 1⟩).x,
              y := alpha * (points.getD (i - 1) ⟨0, 0, 1⟩).y
                     + (1 - alpha) * (points.getD i ⟨0, 0, 1⟩).y,
              weight := (points.getD i ⟨0, 0, 1⟩).weight })
      ++ [points.getD n ⟨0, 0, 1⟩]

/-- The distance test shared by both point finders:
`Math.sqrt((p.x-x)^2 + (p.y-y)^2) <= threshold`.  Over exact numbers,
`sqrt s ≤ thr` (with `s ≥ 0`) is equivalent to `0 ≤ thr ∧ s ≤ thr^2`,
which keeps the predicate in `ℚ`. -/
def withinDist (p : Pt2) (x y threshold : ℚ) : Bool :=
  0 ≤ threshold ∧ (p.x - x) ^ 2 + (p.y - y) ^ 2 ≤ threshold ^ 2

/-- Descending scan of `ControlPointsManager.findPointNear`
(src/Ficha01/Questao01/js/controlPoints.js lines 151-162):
`findPointNearAux pts x y thr k` checks indices `k-1, k-2, …, 0`. -/
def findPointNearAux (pts : List Pt2) (x y threshold : ℚ) : ℕ → ℤ
  | 0 => -1
  | i + 1 =>
      if withinDist (pts.getD i ⟨0, 0⟩) x y threshold then (i : ℤ)
      else findPointNearAux pts x y threshold i

/-- `findPointNear(x, y, threshold)`: iterates `i` from
`points.length - 1` down to `0`, returning the first index within
`threshold`, else `-1`. -/
def findPointNear (pts : List Pt2) (x y threshold : ℚ) : ℤ :=
  findPointNearAux pts x y threshold pts.length

/-- Ascending scan of `ProfilePoints.findPointAt`
(src/Ficha01/Questao02/js/main.js lines 582-591): `i` is the index of the
head of the remaining list. -/
def findPointAtAux (x y threshold : ℚ) : List Pt2 → ℕ → ℤ
  | [], _ => -1
  | p :: rest, i =>
      if withinDist p x y threshold then (i : ℤ)
      else findPointAtAux x y threshold rest (i + 1)

/-- `findPointAt(x, y, threshold)`: iterates `i` from `0` upward, returning
the first index within `threshold`, else `-1`. -/
def findPointAt (pts : List Pt2) (x y threshold : ℚ) : ℤ :=
  findPointAtAux x y threshold pts 0

/-! ## Revolution surface (src/unnamed/part_002, `RevolutionSurface`)

The meshing code takes sines, cosines and square roots, so this part of the
embedding lives in `ℝ`. -/

/-- A 2D profile point with real coordinates. -/
structure PtR where
  x : ℝ
  y : ℝ

/-- A 3D vector `{x, y, z}`. -/
structure V3 where
  x : ℝ
  y : ℝ
  z : ℝ

/-- The zero 3D vector. -/
def V3.zero : V3 := ⟨0, 0, 0⟩

/-- Componentwise sum, used when accumulating face normals. -/
def V3.add (a b : V3) : V3 := ⟨a.x + b.x, a.y + b.y, a.z + b.z⟩

/-- Squared Euclidean length of a 3D vector. -/
def V3.sq (v : V3) : ℝ := v.x ^ 2 + v.y ^ 2 + v.z ^ 2

/-- Euclidean length `Math.sqrt(x*x + y*y + z*z)`. -/
noncomputable def V3.len (v : V3) : ℝ := Real.sqrt v.sq

/-- The revolution axis argument (`'y'`, `'x'`, `'z'`; any other string
falls into the `default` branch of the `switch`). -/
inductive Axis where
  | x
  | y
  | z
  | other

/-- A face is a triple of vertex indices. -/
abbrev Face := ℕ × ℕ × ℕ

/-- The `RevolutionSurface` state: `vertices`, `faces`, `normals`
(the `parameters` metadata object plays no role in any claim and is
omitted). -/
structure Surface where
  vertices : List V3
  faces : List Face
  normals : List V3

/-- `clear()` (src/unnamed/part_002 lines 661-666): the Empty state. -/
def Surface.empty : Surface := ⟨[], [], []⟩

/-- `rotatePoint(point, theta, axis)` (src/unnamed/part_002 lines 532-561). -/
noncomputable def rotatePoint (p : PtR) (theta : ℝ) (ax : Axis) : V3 :=
  match ax with
  | .y => ⟨p.x * Real.cos theta, p.y, p.x * Real.sin theta⟩
  | .x => ⟨p.x, p.y * Real.cos theta, p.y * Real.sin theta⟩
  | .z => ⟨p.x * Real.cos theta - p.y * Real.sin theta,
           p.x * Real.sin theta + p.y * Real.cos theta, 0⟩
  | .other => ⟨p.x, p.y, 0⟩

/-- Cross product `(v1 - v0) × (v2 - v0)` of a face's edges
(`calculateNormals`, src/unnamed/part_002 lines 577-595). -/
def faceCross (vertices : List V3) (f : Face) : V3 :=
  let v0 := vertices.getD f.1 V3.zero
  let v1 := vertices.getD f.2.1 V3.zero
  let v2 := vertices.getD f.2.2 V3.zero
  let e1 : V3 := ⟨v1.x - v0.x, v1.y - v0.y, v1.z - v0.z⟩
  let e2 : V3 := ⟨v2.x - v0.x, v2.y - v0.y, v2.z - v0.z⟩
  ⟨e1.y * e2.z - e1.z * e2.y, e1.z * e2.x - e1.x * e2.z, e1.x * e2.y - e1.y * e2.x⟩

/-- `for (const idx of face) this.normals[idx] += normal`: add `nrm` into the
accumulator at each of the face's three indices in order. -/
def accumFace (acc : List V3) (f : Face) (nrm : V3) : List V3 :=
  [f.1, f.2.1, f.2.2].foldl (fun a idx => a.set idx ((a.getD idx V3.zero).add nrm)) acc

/-- The per-vertex accumulation phase of `calculateNormals`
(src/unnamed/part_002 lines 566-603): start from one zero vector per vertex
and fold every face's cross product into its three vertices. -/
def accumNormals (vertices : List V3) (faces : List Face) : List V3 :=
  faces.foldl (fun acc f => accumFace acc f (faceCross vertices f))
    (vertices.map fun _ => V3.zero)

/-- The final normalization of `calculateNormals` (lines 606-615):
divide by the length when it is positive, otherwise leave the vector as is. -/
noncomputable def normalizeV (v : V3) : V3 :=
  if v.len > 0 then ⟨v.x / v.len, v.y / v.len, v.z / v.len⟩ else v

/-- `calculateNormals()` as a function of the vertex and face lists. -/
noncomputable def calculateNormals (vertices : List V3) (faces : List Face) :
    List V3 :=
  (accumNormals vertices faces).map normalizeV

/-- `generate(profilePoints, axis, angle, subdivisions)` (src/unnamed/part_002
lines 482-523) as a state transformer.  With fewer than 2 profile points the
source logs a warning and returns **before** calling `this.clear()`, so the
previous state survives; otherwise the mesh is rebuilt from scratch. -/
noncomputable def generate (s : Surface) (profilePoints : List PtR) (ax : Axis)
    (angle : ℝ) (subdivisions : ℕ) : Surface :=
  if profilePoints.length < 2 then s
  else
    let angleRad := angle * Real.pi / 180
    let angleStep := angleRad / (subdivisions : ℝ)
    let vertices := (List.range (subdivisions + 1)).flatMap fun (i : ℕ) =>
      profilePoints.map fun p => rotatePoint p ((i : ℝ) * angleStep) ax
    let pointsPerRing := profilePoints.length
    let faces := (List.range subdivisions).flatMap fun i =>
      (List.range (pointsPerRing - 1)).flatMap fun j =>
        [(i * pointsPerRing + j, i * pointsPerRing + j + pointsPerRing,
          i * pointsPerRing + j + 1),
         (i * pointsPerRing + j + 1, i * pointsPerRing + j + pointsPerRing,
          i * pointsPerRing + j + pointsPerRing + 1)]
    { vertices := vertices, faces := faces,
      normals := calculateNormals vertices faces }

/-! ## Bernstein form of the de Casteljau loop

The proofs below relate the iterated reduction loop to the Bernstein
polynomial of the control coordinates: one reduction round leaves the
Bernstein value unchanged, so the single survivor of the loop is the
Bernstein value of the input. -/

/-- One de Casteljau round on a list of scalars (the common shape of the
`x`, `y` and homogeneous coordinates of `dcStep` / `dcStep3`). -/
def dcStepQ (t : ℚ) : List ℚ → List ℚ
  | a :: b :: r => ((1 - t) * a + t * b) :: dcStepQ t (b :: r)
  | _ => []

/-- Bernstein value `Σ_i C(n,i) t^i (1-t)^(n-i) q_i` of a scalar list of
length `n+1`. -/
def bernQ (q : List ℚ) (t : ℚ) : ℚ :=
  ∑ i in Finset.range q.length,
    (Nat.choose (q.length - 1) i : ℚ) * t ^ i * (1 - t) ^ (q.length - 1 - i) * q.getD i 0

theorem dcStepQ_length (t : ℚ) (q : List ℚ) : (dcStepQ t q).length = q.length - 1 := by
  induction q with
  | nil => rfl
  | cons a q ih =>
      cases q with
      | nil => rfl
      | cons b r => simp only [dcStepQ, List.length_cons] at ih ⊢; omega

theorem dcStepQ_getD (t : ℚ) (q : List ℚ) (i : ℕ) (h : i + 1 < q.length) :
    (dcStepQ t q).getD i 0 = (1 - t) * q.getD i 0 + t * q.getD (i + 1) 0 := by
  induction q generalizing i with
  | nil => simp at h
  | cons a q ih =>
      cases q with
      | nil => simp at h
      | cons b r =>
          cases i with
          | zero => simp [dcStepQ]
          | succ i =>
              simp only [dcStepQ, List.getD_cons_succ]
              exact ih i (by simpa using h)

theorem bernQ_singleton (a t : ℚ) : bernQ [a] t = a := by
  simp [bernQ]

theorem bernQ_dcStepQ (t : ℚ) (q : List ℚ) (h : 2 ≤ q.length) :
    bernQ (dcStepQ t q) t = bernQ q t := by
  obtain ⟨n, hn⟩ : ∃ n, q.length = n + 2 := ⟨q.length - 2, by omega⟩
  have hlen : (dcStepQ t q).length = n + 1 := by rw [dcStepQ_length]; omega
  unfold bernQ
  rw [hlen, hn]
  have e1 : n + 1 - 1 = n := by omega
  have e2 : n + 2 - 1 = n + 1 := by omega
  simp only [e1, e2]
  have hq : ∀ i ∈ Finset.range (n + 1),
      (Nat.choose n i : ℚ) * t ^ i * (1 - t) ^ (n - i) * (dcStepQ t q).getD i 0
        = (Nat.choose n i : ℚ) * t ^ i * (1 - t) ^ (n - i + 1) * q.getD i 0
          + (Nat.choose n i : ℚ) * t ^ (i + 1) * (1 - t) ^ (n - i) * q.getD (i + 1) 0 := by
    intro i hi
    rw [dcStepQ_getD t q i (by simp only [Finset.mem_range] at hi; omega)]
    ring
  rw [Finset.sum_congr rfl hq, Finset.sum_add_distrib]
  -- the second Pascal summand below is the first half of the left side
  -- without its `i = 0` term
  have hshift : ∑ i in Finset.range (n + 1),
      (Nat.choose n (i + 1) : ℚ) * t ^ (i + 1) * (1 - t) ^ (n - i) * q.getD (i + 1) 0
        = (∑ i in Finset.range (n + 1),
            (Nat.choose n i : ℚ) * t ^ i * (1 - t) ^ (n - i + 1) * q.getD i 0)
          - (1 - t) ^ (n + 1) * q.getD 0 0 := by
    have hg := Finset.sum_range_succ'
      (fun i => (Nat.choose n i : ℚ) * t ^ i * (1 - t) ^ (n + 1 - i) * q.getD i 0) (n + 1)
    rw [Finset.sum_range_succ] at hg
    have hlast : (Nat.choose n (n + 1) : ℚ) * t ^ (n + 1) * (1 - t) ^ (n + 1 - (n + 1))
        * q.getD (n + 1) 0 = 0 := by
      rw [Nat.choose_eq_zero_of_lt (by omega)]
      push_cast
      ring
    rw [hlast] at hg
    have hg2 : ∀ i ∈ Finset.range (n + 1),
        (Nat.choose n (i + 1) : ℚ) * t ^ (i + 1) * (1 - t) ^ (n + 1 - (i + 1))
            * q.getD (i + 1) 0
          = (Nat.choose n (i + 1) : ℚ) * t ^ (i + 1) * (1 - t) ^ (n - i) * q.getD (i + 1) 0 := by
    -- (the body rewrites the exponent only)
      intro i hi
      have hei : n + 1 - (i + 1) = n - i := by omega
      rw [hei]
    rw [Finset.sum_congr rfl hg2] at hg
    have h0 : (Nat.choose n 0 : ℚ) * t ^ 0 * (1 - t) ^ (n + 1 - 0) * q.getD 0 0
        = (1 - t) ^ (n + 1) * q.getD 0 0 := by simp
    rw [h0] at hg
    have hAeq : ∑ i in Finset.range (n + 1),
        (Nat.choose n i : ℚ) * t ^ i * (1 - t) ^ (n + 1 - i) * q.getD i 0
          = ∑ i in Finset.range (n + 1),
              (Nat.choose n i : ℚ) * t ^ i * (1 - t) ^ (n - i + 1) * q.getD i 0 := by
      refine Finset.sum_congr rfl fun i hi => ?_
      simp only [Finset.mem_range] at hi
      have hei : n + 1 - i = n - i + 1 := by omega
      rw [hei]
    rw [hAeq] at hg
    linarith
  have hsplit := Finset.sum_range_succ'
    (fun i => (Nat.choose (n + 1) i : ℚ) * t ^ i * (1 - t) ^ (n + 1 - i) * q.getD i 0) (n + 1)
  rw [hsplit]
  have hpascal : ∀ i ∈ Finset.range (n + 1),
      (Nat.choose (n + 1) (i + 1) : ℚ) * t ^ (i + 1) * (1 - t) ^ (n + 1 - (i + 1))
          * q.getD (i + 1) 0
        = (Nat.choose n i : ℚ) * t ^ (i + 1) * (1 - t) ^ (n - i) * q.getD (i + 1) 0
          + (Nat.choose n (i + 1) : ℚ) * t ^ (i + 1) * (1 - t) ^ (n - i) * q.getD (i + 1) 0 := by
    intro i hi
    have h1 : n + 1 - (i + 1) = n - i := by omega
    rw [h1, Nat.choose_succ_succ]
    push_cast
    ring
  rw [Finset.sum_congr rfl hpascal, Finset.sum_add_distrib, hshift]
  have h00 : (Nat.choose (n + 1) 0 : ℚ) * t ^ 0 * (1 - t) ^ (n + 1 - 0) * q.getD 0 0
      = (1 - t) ^ (n + 1) * q.getD 0 0 := by simp
  rw [h00]
  ring

theorem bernQ_zero (q : List ℚ) : bernQ q 0 = q.getD 0 0 := by
  cases q with
  | nil => simp [bernQ]
  | cons a r =>
      unfold bernQ
      rw [Finset.sum_eq_single_of_mem 0 (by simp)]
      · simp
      · intro i _ hi
        rw [zero_pow hi]
        ring

theorem bernQ_one (q : List ℚ) : bernQ q 1 = q.getD (q.length - 1) 0 := by
  cases q with
  | nil => simp [bernQ]
  | cons a r =>
      unfold bernQ
      simp only [List.length_cons, Nat.add_sub_cancel]
      rw [Finset.sum_eq_single_of_mem r.length (Finset.mem_range.mpr (by omega))]
      · simp
      · intro i hi hne
        have hz : (1 - (1 : ℚ)) ^ (r.length - i) = 0 := by
          rw [sub_self, zero_pow (by simp only [Finset.mem_range] at hi; omega)]
        rw [hz]
        ring

theorem dcStep_map_x (t : ℚ) (l : List Pt2) :
    (dcStep t l).map Pt2.x = dcStepQ t (l.map Pt2.x) := by
  induction l with
  | nil => rfl
  | cons a l ih =>
      cases l with
      | nil => rfl
      | cons b r => simp only [dcStep, dcStepQ, List.map_cons] at ih ⊢; rw [ih]

theorem dcStep_map_y (t : ℚ) (l : List Pt2) :
    (dcStep t l).map Pt2.y = dcStepQ t (l.map Pt2.y) := by
  induction l with
  | nil => rfl
  | cons a l ih =>
      cases l with
      | nil => rfl
      | cons b r => simp only [dcStep, dcStepQ, List.map_cons] at ih ⊢; rw [ih]

theorem dcStep3_map_wx (t : ℚ) (l : List HPoint) :
    (dcStep3 t l).map HPoint.wx = dcStepQ t (l.map HPoint.wx) := by
  induction l with
  | nil => rfl
  | cons a l ih =>
      cases l with
      | nil => rfl
      | cons b r => simp only [dcStep3, dcStepQ, List.map_cons] at ih ⊢; rw [ih]

theorem dcStep3_map_wy (t : ℚ) (l : List HPoint) :
    (dcStep3 t l).map HPoint.wy = dcStepQ t (l.map HPoint.wy) := by
  induction l with
  | nil => rfl
  | cons a l ih =>
      cases l with
      | nil => rfl
      | cons b r => simp only [dcStep3, dcStepQ, List.map_cons] at ih ⊢; rw [ih]

theorem dcStep3_map_w (t : ℚ) (l : List HPoint) :
    (dcStep3 t l).map HPoint.w = dcStepQ t (l.map HPoint.w) := by
  induction l with
  | nil => rfl
  | cons a l ih =>
      cases l with
      | nil => rfl
      | cons b r => simp only [dcStep3, dcStepQ, List.map_cons] at ih ⊢; rw [ih]

theorem dcStep_length (t : ℚ) (l : List Pt2) : (dcStep t l).length = l.length - 1 := by
  rw [← List.length_map (dcStep t l) Pt2.x, dcStep_map_x, dcStepQ_length, List.length_map]

theorem dcStep3_length (t : ℚ) (l : List HPoint) :
    (dcStep3 t l).length = l.length - 1 := by
  rw [← List.length_map (dcStep3 t l) HPoint.w, dcStep3_map_w, dcStepQ_length,
    List.length_map]

theorem dcStep_iterate (t : ℚ) (n : ℕ) :
    ∀ l : List Pt2, l.length = n + 1 →
      (dcStep t)^[n] l = [⟨bernQ (l.map Pt2.x) t, bernQ (l.map Pt2.y) t⟩] := by
  induction n with
  | zero =>
      intro l hl
      match l, hl with
      | [p], _ =>
          obtain ⟨px, py⟩ := p
          simp [bernQ_singleton]
  | succ n ih =>
      intro l hl
      rw [Function.iterate_succ_apply]
      rw [ih (dcStep t l) (by rw [dcStep_length]; omega)]
      rw [dcStep_map_x, dcStep_map_y,
        bernQ_dcStepQ t _ (by rw [List.length_map]; omega),
        bernQ_dcStepQ t _ (by rw [List.length_map]; omega)]

/-- The de Casteljau `while` loop on a nonempty list of plain points returns
the Bernstein value of the coordinates. -/
theorem dcStep_run (t : ℚ) (l : List Pt2) (hl : l ≠ []) :
    (dcStep t)^[l.length - 1] l = [⟨bernQ (l.map Pt2.x) t, bernQ (l.map Pt2.y) t⟩] := by
  have : l.length = (l.length - 1) + 1 := by
    cases l with
    | nil => exact absurd rfl hl
    | cons a r => simp
  exact dcStep_iterate t (l.length - 1) l this

theorem dcStep3_iterate (t : ℚ) (n : ℕ) :
    ∀ l : List HPoint, l.length = n + 1 →
      (dcStep3 t)^[n] l
        = [⟨bernQ (l.map HPoint.wx) t, bernQ (l.map HPoint.wy) t,
            bernQ (l.map HPoint.w) t⟩] := by
  induction n with
  | zero =>
      intro l hl
      match l, hl with
      | [p], _ =>
          obtain ⟨pwx, pwy, pw⟩ := p
          simp [bernQ_singleton]
  | succ n ih =>
      intro l hl
      rw [Function.iterate_succ_apply]
      rw [ih (dcStep3 t l) (by rw [dcStep3_length]; omega)]
      rw [dcStep3_map_wx, dcStep3_map_wy, dcStep3_map_w,
        bernQ_dcStepQ t _ (by rw [List.length_map]; omega),
        bernQ_dcStepQ t _ (by rw [List.length_map]; omega),
        bernQ_dcStepQ t _ (by rw [List.length_map]; omega)]

/-- The homogeneous de Casteljau `while` loop on a nonempty list returns the
Bernstein value of the three homogeneous coordinates. -/
theorem dcStep3_run (t : ℚ) (l : List HPoint) (hl : l ≠ []) :
    (dcStep3 t)^[l.length - 1] l
      = [⟨bernQ (l.map HPoint.wx) t, bernQ (l.map HPoint.wy) t,
          bernQ (l.map HPoint.w) t⟩] := by
  have hlen : l.length = (l.length - 1) + 1 := by
    cases l with
    | nil => exact absurd rfl hl
    | cons a r => simp
  exact dcStep3_iterate t (l.length - 1) l hlen

theorem bernQ_const_one (q : List ℚ) (hq : q ≠ []) (hone : ∀ a ∈ q, a = 1) (t : ℚ) :
    bernQ q t = 1 := by
  obtain ⟨n, hn⟩ : ∃ n, q.length = n + 1 :=
    ⟨q.length - 1, by cases q with | nil => exact absurd rfl hq | cons a r => simp⟩
  unfold bernQ
  rw [hn]
  simp only [Nat.add_sub_cancel]
  have hval : ∀ i ∈ Finset.range (n + 1),
      (Nat.choose n i : ℚ) * t ^ i * (1 - t) ^ (n - i) * q.getD i 0
        = t ^ i * (1 - t) ^ (n - i) * (Nat.choose n i : ℚ) := by
    intro i hi
    simp only [Finset.mem_range] at hi
    have hmem : q.getD i 0 ∈ q := by
      rw [List.getD_eq_getElem q 0 (by omega)]
      exact List.getElem_mem _
    rw [hone _ hmem]
    ring
  rw [Finset.sum_congr rfl hval, ← add_pow]
  simp

/-- `deCasteljauSimple` on a nonempty list is the Bernstein value of the
`x` and `y` coordinates. -/
theorem deCasteljauSimple_eq (ps : List CPoint) (hp : ps ≠ []) (t : ℚ) :
    deCasteljauSimple ps t
      = some ⟨bernQ (ps.map fun p => p.x) t, bernQ (ps.map fun p => p.y) t⟩ := by
  match ps with
  | [p] => simp [deCasteljauSimple, bernQ_singleton]
  | p0 :: p1 :: rest =>
      simp only [deCasteljauSimple]
      rw [dcStep_run t _ (by simp)]
      simp [List.map_map, Function.comp_def]

/-- The Questão 02 `deCasteljau` on a nonempty list is the Bernstein value
of the coordinates. -/
theorem deCasteljauQ2_eq (ps : List Pt2) (hp : ps ≠ []) (t : ℚ) :
    deCasteljauQ2 ps t = some ⟨bernQ (ps.map Pt2.x) t, bernQ (ps.map Pt2.y) t⟩ := by
  match ps with
  | [p] =>
      obtain ⟨px, py⟩ := p
      simp [deCasteljauQ2, bernQ_singleton]
  | p0 :: p1 :: rest =>
      simp only [deCasteljauQ2]
      rw [dcStep_run t _ (by simp)]
      rfl

/-- The rational `deCasteljau` on a nonempty list is the perspective quotient
of the Bernstein values of the homogeneous coordinates.  (When some
Bernstein weight combination vanishes the quotient is the `x/0 = 0`
convention; the uses below all have a nonzero denominator.) -/
theorem deCasteljau_eq (ps : List CPoint) (hp : ps ≠ []) (t : ℚ) :
    deCasteljau ps t
      = some ⟨bernQ (ps.map fun p => p.x * wt p) t / bernQ (ps.map wt) t,
              bernQ (ps.map fun p => p.y * wt p) t / bernQ (ps.map wt) t⟩ := by
  match ps with
  | [p] =>
      simp only [deCasteljau, List.map_cons, List.map_nil, bernQ_singleton]
      have hw := wt_ne_zero p
      rw [mul_div_cancel_right₀ p.x hw, mul_div_cancel_right₀ p.y hw]
  | p0 :: p1 :: rest =>
      simp only [deCasteljau]
      rw [dcStep3_run t _ (by simp)]
      simp [List.map_map, Function.comp_def, lift]

/-! ## Helper lemmas about list access -/

theorem getD_map_head {α : Type} (f : α → ℚ) (l : List α) (hl : l ≠ []) :
    (l.map f).getD 0 0 = f (l.head hl) := by
  cases l with
  | nil => exact absurd rfl hl
  | cons a r => simp

theorem getD_map_last {α : Type} (f : α → ℚ) (l : List α) (hl : l ≠ []) :
    (l.map f).getD (l.length - 1) 0 = f (l.getLast hl) := by
  have h1 : l.length - 1 < (l.map f).length := by
    rw [List.length_map]
    cases l with
    | nil => exact absurd rfl hl
    | cons a r => simp
  rw [List.getD_eq_getElem _ _ h1, List.getElem_map, List.getLast_eq_getElem]

theorem getD_map_len {α : Type} (f : α → ℚ) (l : List α) (i : ℕ) (h : i < l.length)
    (d : α) : (l.map f).getD i 0 = f (l.getD i d) := by
  rw [List.getD_eq_getElem _ _ (by simpa using h), List.getElem_map,
    List.getD_eq_getElem _ _ h]

theorem filterMap_id_map_some {α β : Type} (l : List α) (f : α → Option β) (g : α → β)
    (h : ∀ a ∈ l, f a = some (g a)) : (l.map f).filterMap id = l.map g := by
  induction l with
  | nil => rfl
  | cons a r ih =>
      simp only [List.map_cons, List.filterMap_cons, h a (by simp), id]
      rw [ih fun b hb => h b (by simp [hb])]

/-! ## C2: endpoint interpolation of the Bézier evaluators -/

/-- C2: for every non-empty control-point list, each of the three Bézier
evaluators (`deCasteljauSimple`, the rational `deCasteljau`, and the
Questão 02 `deCasteljau`) returns the `(x, y)` of the first control point at
`t = 0` and of the last control point at `t = 1`. -/
theorem c2_bezier_endpoint_interpolation (ps : List CPoint) (qs : List Pt2)
    (hp : ps ≠ []) (hq : qs ≠ []) :
    deCasteljauSimple ps 0 = some ⟨(ps.head hp).x, (ps.head hp).y⟩ ∧
    deCasteljauSimple ps 1 = some ⟨(ps.getLast hp).x, (ps.getLast hp).y⟩ ∧
    deCasteljau ps 0 = some ⟨(ps.head hp).x, (ps.head hp).y⟩ ∧
    deCasteljau ps 1 = some ⟨(ps.getLast hp).x, (ps.getLast hp).y⟩ ∧
    deCasteljauQ2 qs 0 = some (qs.head hq) ∧
    deCasteljauQ2 qs 1 = some (qs.getLast hq) := by
  have hw0 := wt_ne_zero (ps.head hp)
  have hw1 := wt_ne_zero (ps.getLast hp)
  refine ⟨?_, ?_, ?_, ?_, ?_, ?_⟩
  · rw [deCasteljauSimple_eq ps hp, bernQ_zero, bernQ_zero,
      getD_map_head _ ps hp, getD_map_head _ ps hp]
  · rw [deCasteljauSimple_eq ps hp, bernQ_one, bernQ_one, List.length_map,
      List.length_map, getD_map_last _ ps hp, getD_map_last _ ps hp]
  · rw [deCasteljau_eq ps hp, bernQ_zero, bernQ_zero, bernQ_zero,
      getD_map_head _ ps hp, getD_map_head _ ps hp, getD_map_head _ ps hp,
      mul_div_cancel_right₀ _ hw0, mul_div_cancel_right₀ _ hw0]
  · rw [deCasteljau_eq ps hp, bernQ_one, bernQ_one, bernQ_one, List.length_map,
      List.length_map, List.length_map, getD_map_last _ ps hp,
      getD_map_last _ ps hp, getD_map_last _ ps hp,
      mul_div_cancel_right₀ _ hw1, mul_div_cancel_right₀ _ hw1]
  · rw [deCasteljauQ2_eq qs hq, bernQ_zero, bernQ_zero,
      getD_map_head _ qs hq, getD_map_head _ qs hq]
  · rw [deCasteljauQ2_eq qs hq, bernQ_one, bernQ_one, List.length_map,
      List.length_map, getD_map_last _ qs hq, getD_map_last _ qs hq]

/-- Closed witness for `c2_bezier_endpoint_interpolation` at a concrete
three-point Bézier curve. -/
theorem c2_bezier_endpoint_interpolation_witness :
    ([(⟨0, 0, 1⟩ : CPoint), ⟨50, 100, 2⟩, ⟨100, 0, 1⟩] ≠ []) ∧
    ([(⟨3, 4⟩ : Pt2), ⟨7, 9⟩] ≠ []) ∧
    (deCasteljauSimple [⟨0, 0, 1⟩, ⟨50, 100, 2⟩, ⟨100, 0, 1⟩] 0 = some ⟨0, 0⟩ ∧
     deCasteljauSimple [⟨0, 0, 1⟩, ⟨50, 100, 2⟩, ⟨100, 0, 1⟩] 1 = some ⟨100, 0⟩ ∧
     deCasteljau [⟨0, 0, 1⟩, ⟨50, 100, 2⟩, ⟨100, 0, 1⟩] 0 = some ⟨0, 0⟩ ∧
     deCasteljau [⟨0, 0, 1⟩, ⟨50, 100, 2⟩, ⟨100, 0, 1⟩] 1 = some ⟨100, 0⟩ ∧
     deCasteljauQ2 [⟨3, 4⟩, ⟨7, 9⟩] 0 = some ⟨3, 4⟩ ∧
     deCasteljauQ2 [⟨3, 4⟩, ⟨7, 9⟩] 1 = some ⟨7, 9⟩) :=
  ⟨by simp, by simp,
   c2_bezier_endpoint_interpolation
     [⟨0, 0, 1⟩, ⟨50, 100, 2⟩, ⟨100, 0, 1⟩] [⟨3, 4⟩, ⟨7, 9⟩] (by simp) (by simp)⟩

/-! ## C5: rational evaluation with unit weights matches the simple one -/

/-- C5: when every weight equals 1, the rational homogeneous-coordinate
evaluator agrees with the non-rational one at every `t`, and `generateBezierCurve`
(whose `hasWeights` test then selects the non-rational algorithm) produces
the same samples whether or not `useWeights` is requested. -/
theorem c5_unit_weights_rational_eq_simple (ps : List CPoint)
    (h1 : ∀ p ∈ ps, p.weight = 1) :
    (∀ t, deCasteljau ps t = deCasteljauSimple ps t) ∧
    (∀ steps useWeights,
      generateBezierCurve ps steps useWeights = generateBezierCurve ps steps false) := by
  have hW : hasWeights ps = false := by
    simp only [hasWeights, List.any_eq_false, bne_iff_ne, ne_eq, not_not]
    exact h1
  constructor
  · intro t
    rcases hps : ps with _ | ⟨a, r⟩
    · rfl
    · rw [← hps]
      have hp : ps ≠ [] := by rw [hps]; simp
      rw [deCasteljau_eq ps hp t, deCasteljauSimple_eq ps hp t]
      have hwt : ∀ p ∈ ps, wt p = 1 := by
        intro p hmem
        rw [wt, h1 p hmem]
        norm_num
      have hden : bernQ (ps.map wt) t = 1 := by
        refine bernQ_const_one _ (by simp [hp]) ?_ t
        intro b hb
        obtain ⟨p, hmem, hpa⟩ := List.mem_map.mp hb
        rw [← hpa]
        exact hwt p hmem
      have hx : ps.map (fun p => p.x * wt p) = ps.map fun p => p.x :=
        List.map_congr_left fun p hmem => by rw [hwt p hmem, mul_one]
      have hy : ps.map (fun p => p.y * wt p) = ps.map fun p => p.y :=
        List.map_congr_left fun p hmem => by rw [hwt p hmem, mul_one]
      rw [hden, hx, hy, div_one, div_one]
  · intro steps useWeights
    simp [generateBezierCurve, hW]

/-- Closed witness for `c5_unit_weights_rational_eq_simple` on the spec's
scenario-B square of unit-weight control points. -/
theorem c5_unit_weights_rational_eq_simple_witness :
    (∀ p ∈ [(⟨0, 0, 1⟩ : CPoint), ⟨10, 0, 1⟩, ⟨10, 10, 1⟩, ⟨0, 10, 1⟩], p.weight = 1) ∧
    ((∀ t, deCasteljau [(⟨0, 0, 1⟩ : CPoint), ⟨10, 0, 1⟩, ⟨10, 10, 1⟩, ⟨0, 10, 1⟩] t
        = deCasteljauSimple [⟨0, 0, 1⟩, ⟨10, 0, 1⟩, ⟨10, 10, 1⟩, ⟨0, 10, 1⟩] t) ∧
     (∀ steps useWeights,
        generateBezierCurve [(⟨0, 0, 1⟩ : CPoint), ⟨10, 0, 1⟩, ⟨10, 10, 1⟩, ⟨0, 10, 1⟩]
            steps useWeights
          = generateBezierCurve [⟨0, 0, 1⟩, ⟨10, 0, 1⟩, ⟨10, 10, 1⟩, ⟨0, 10, 1⟩]
              steps false)) :=
  ⟨by decide,
   c5_unit_weights_rational_eq_simple
     [⟨0, 0, 1⟩, ⟨10, 0, 1⟩, ⟨10, 10, 1⟩, ⟨0, 10, 1⟩] (by decide)⟩

/-! ## C4: degree elevation -/

/-- The scalar form of the elevated control polygon: `elevQ q m` is the list
built by `elevateBezierDegree` on the `x` (or `y`) coordinates of a list of
`m + 2` points. -/
def elevQ (q : List ℚ) (m : ℕ) : List ℚ :=
  q.getD 0 0
    :: ((List.range' 1 (m + 1)).map fun (j : ℕ) =>
         ((j : ℚ) / ((m : ℚ) + 2)) * q.getD (j - 1) 0
           + (1 - (j : ℚ) / ((m : ℚ) + 2)) * q.getD j 0)
    ++ [q.getD (m + 1) 0]

theorem elevQ_length (q : List ℚ) (m : ℕ) : (elevQ q m).length = m + 3 := by
  simp [elevQ]

theorem elevQ_getD (q : List ℚ) (m : ℕ) (hq : q.length = m + 2) (i : ℕ)
    (hi : i < m + 3) :
    (elevQ q m).getD i 0
      = ((i : ℚ) / ((m : ℚ) + 2)) * q.getD (i - 1) 0
        + (((m : ℚ) + 2 - (i : ℚ)) / ((m : ℚ) + 2)) * q.getD i 0 := by
  have hm2 : ((m : ℚ) + 2) ≠ 0 := by positivity
  cases i with
  | zero =>
      simp only [elevQ, List.cons_append, List.getD_cons_zero, Nat.cast_zero,
        zero_div, zero_mul, zero_add, sub_zero, div_self hm2, one_mul]
  | succ j =>
      simp only [elevQ, List.cons_append, List.getD_cons_succ]
      have hmids : ((List.range' 1 (m + 1)).map fun (j : ℕ) =>
          ((j : ℚ) / ((m : ℚ) + 2)) * q.getD (j - 1) 0
            + (1 - (j : ℚ) / ((m : ℚ) + 2)) * q.getD j 0).length = m + 1 := by
        simp
      rcases Nat.lt_or_ge j (m + 1) with hj | hj
      · have hjl : j < ((List.range' 1 (m + 1)).map fun (j : ℕ) =>
            ((j : ℚ) / ((m : ℚ) + 2)) * q.getD (j - 1) 0
              + (1 - (j : ℚ) / ((m : ℚ) + 2)) * q.getD j 0).length := by
          rw [hmids]; omega
        rw [List.getD_append _ _ _ _ hjl, List.getD_eq_getElem _ _ hjl,
          List.getElem_map, List.getElem_range']
        simp only [one_mul]
        have h4 : (1 + j : ℕ) = j + 1 := by omega
        rw [h4]
        have h1 : j + 1 - 1 = j := by omega
        rw [h1]
        have hc2 : ((j + 1 : ℕ) : ℚ) = (j : ℚ) + 1 := by push_cast; ring
        rw [hc2]
        have h3 : (1 : ℚ) - ((j : ℚ) + 1) / ((m : ℚ) + 2)
            = ((m : ℚ) + 2 - ((j : ℚ) + 1)) / ((m : ℚ) + 2) := by
          field_simp
        rw [h3]
      · have hje : j = m + 1 := by omega
        subst hje
        rw [List.getD_append_right _ _ _ _ (by rw [hmids]), hmids]
        have h5 : m + 1 - (m + 1) = 0 := by omega
        rw [h5, List.getD_cons_zero]
        have h6 : q.getD (m + 2) 0 = 0 :=
          List.getD_eq_default _ _ (by omega)
        have h7 : (m + 1 + 1 : ℕ) - 1 = m + 1 := by omega
        rw [h7, h6]
        have hc : ((m + 1 + 1 : ℕ) : ℚ) = (m : ℚ) + 2 := by push_cast; ring
        rw [hc, div_self hm2, one_mul, mul_zero, add_zero]

/-- Degree elevation leaves the Bernstein value of a scalar coordinate list
unchanged. -/
theorem bernQ_elevQ (q : List ℚ) (m : ℕ) (hq : q.length = m + 2) (t : ℚ) :
    bernQ (elevQ q m) t = bernQ q t := by
  have hm2 : ((m : ℚ) + 2) ≠ 0 := by positivity
  unfold bernQ
  rw [elevQ_length, hq]
  have e1 : m + 3 - 1 = m + 2 := by omega
  have e2 : m + 2 - 1 = m + 1 := by omega
  simp only [e1, e2]
  have hsplit : ∀ i ∈ Finset.range (m + 3),
      (Nat.choose (m + 2) i : ℚ) * t ^ i * (1 - t) ^ (m + 2 - i) * (elevQ q m).getD i 0
        = (Nat.choose (m + 2) i : ℚ) * ((i : ℚ) / ((m : ℚ) + 2)) * t ^ i
            * (1 - t) ^ (m + 2 - i) * q.getD (i - 1) 0
          + (Nat.choose (m + 2) i : ℚ) * (((m : ℚ) + 2 - (i : ℚ)) / ((m : ℚ) + 2))
            * t ^ i * (1 - t) ^ (m + 2 - i) * q.getD i 0 := by
    intro i hi
    rw [elevQ_getD q m hq i (by simpa using hi)]
    ring
  rw [Finset.sum_congr rfl hsplit, Finset.sum_add_distrib]
  -- first summand: shift the index down by one
  have hS1 : ∑ i in Finset.range (m + 3),
      (Nat.choose (m + 2) i : ℚ) * ((i : ℚ) / ((m : ℚ) + 2)) * t ^ i
        * (1 - t) ^ (m + 2 - i) * q.getD (i - 1) 0
      = ∑ j in Finset.range (m + 2),
          (Nat.choose (m + 1) j : ℚ) * t ^ (j + 1) * (1 - t) ^ (m + 1 - j)
            * q.getD j 0 := by
    rw [Finset.sum_range_succ']
    have hterm : ∀ j ∈ Finset.range (m + 2),
        (Nat.choose (m + 2) (j + 1) : ℚ) * (((j + 1 : ℕ) : ℚ) / ((m : ℚ) + 2))
            * t ^ (j + 1) * (1 - t) ^ (m + 2 - (j + 1)) * q.getD (j + 1 - 1) 0
          = (Nat.choose (m + 1) j : ℚ) * t ^ (j + 1) * (1 - t) ^ (m + 1 - j)
            * q.getD j 0 := by
      intro j hj
      have hnat : (m + 2) * Nat.choose (m + 1) j = Nat.choose (m + 2) (j + 1) * (j + 1) := by
        have h := Nat.succ_mul_choose_eq (m + 1) j
        simpa [Nat.succ_eq_add_one] using h
      have hcast : ((m : ℚ) + 2) * (Nat.choose (m + 1) j : ℚ)
          = (Nat.choose (m + 2) (j + 1) : ℚ) * ((j : ℚ) + 1) := by
        exact_mod_cast congrArg (fun x : ℕ => (x : ℚ)) hnat
      have hco : (Nat.choose (m + 2) (j + 1) : ℚ) * (((j + 1 : ℕ) : ℚ) / ((m : ℚ) + 2))
          = (Nat.choose (m + 1) j : ℚ) := by
        push_cast
        field_simp
        linarith
      have hje : j + 1 - 1 = j := by omega
      have hex : m + 2 - (j + 1) = m + 1 - j := by omega
      rw [hje, hex, ← hco]
    rw [Finset.sum_congr rfl hterm]
    norm_num
  -- second summand: the final term vanishes
  have hS2 : ∑ i in Finset.range (m + 3),
      (Nat.choose (m + 2) i : ℚ) * (((m : ℚ) + 2 - (i : ℚ)) / ((m : ℚ) + 2))
        * t ^ i * (1 - t) ^ (m + 2 - i) * q.getD i 0
      = ∑ i in Finset.range (m + 2),
          (Nat.choose (m + 1) i : ℚ) * t ^ i * (1 - t) ^ ((m + 1 - i) + 1)
            * q.getD i 0 := by
    rw [Finset.sum_range_succ]
    have hlast : (Nat.choose (m + 2) (m + 2) : ℚ)
        * (((m : ℚ) + 2 - ((m + 2 : ℕ) : ℚ)) / ((m : ℚ) + 2)) * t ^ (m + 2)
        * (1 - t) ^ (m + 2 - (m + 2)) * q.getD (m + 2) 0 = 0 := by
      push_cast
      ring
    have hterm : ∀ i ∈ Finset.range (m + 2),
        (Nat.choose (m + 2) i : ℚ) * (((m : ℚ) + 2 - (i : ℚ)) / ((m : ℚ) + 2))
            * t ^ i * (1 - t) ^ (m + 2 - i) * q.getD i 0
          = (Nat.choose (m + 1) i : ℚ) * t ^ i * (1 - t) ^ ((m + 1 - i) + 1)
            * q.getD i 0 := by
      intro i hi
      simp only [Finset.mem_range] at hi
      have h1 := Nat.choose_succ_right_eq (m + 2) i
      have h2 : (m + 2) * Nat.choose (m + 1) i = Nat.choose (m + 2) (i + 1) * (i + 1) := by
        have h := Nat.succ_mul_choose_eq (m + 1) i
        simpa [Nat.succ_eq_add_one] using h
      have hnat : Nat.choose (m + 2) i * (m + 2 - i) = (m + 2) * Nat.choose (m + 1) i := by
        omega
      have hcast : (Nat.choose (m + 2) i : ℚ) * ((m : ℚ) + 2 - (i : ℚ))
          = ((m : ℚ) + 2) * (Nat.choose (m + 1) i : ℚ) := by
        have h3 := congrArg (fun x : ℕ => (x : ℚ)) hnat
        push_cast [Nat.cast_sub (by omega : i ≤ m + 2)] at h3
        linarith
      have hco : (Nat.choose (m + 2) i : ℚ) * (((m : ℚ) + 2 - (i : ℚ)) / ((m : ℚ) + 2))
          = (Nat.choose (m + 1) i : ℚ) := by
        field_simp
        linarith
      have hex : m + 2 - i = (m + 1 - i) + 1 := by omega
      rw [hex, ← hco]
    rw [Finset.sum_congr rfl hterm, hlast, add_zero]
  rw [hS1, hS2, ← Finset.sum_add_distrib]
  refine Finset.sum_congr rfl fun i hi => ?_
  ring

theorem elevate_map_x (ps : List CPoint) (m : ℕ) (hps : ps.length = m + 2) :
    (elevateBezierDegree ps).map (fun p => p.x) = elevQ (ps.map fun p => p.x) m := by
  unfold elevateBezierDegree elevQ
  rw [if_neg (by omega)]
  have e : ps.length - 1 = m + 1 := by omega
  rw [e]
  simp only [List.map_append, List.map_cons, List.map_nil, List.map_map]
  refine congrArg₂ _ (congrArg₂ _ ?_ ?_) ?_
  · exact (getD_map_len (fun p => p.x) ps 0 (by omega) ⟨0, 0, 1⟩).symm
  · refine List.map_congr_left fun i hi => ?_
    have hmem : 1 ≤ i ∧ i < 1 + (m + 1) := List.mem_range'_1.mp hi
    simp only [Function.comp]
    rw [getD_map_len (fun p => p.x) ps (i - 1) (by omega) ⟨0, 0, 1⟩,
      getD_map_len (fun p => p.x) ps i (by omega) ⟨0, 0, 1⟩]
    have hc : ((m + 1 : ℕ) : ℚ) + 1 = (m : ℚ) + 2 := by push_cast; ring
    rw [hc]
  · rw [getD_map_len (fun p => p.x) ps (m + 1) (by omega) ⟨0, 0, 1⟩]

theorem elevate_map_y (ps : List CPoint) (m : ℕ) (hps : ps.length = m + 2) :
    (elevateBezierDegree ps).map (fun p => p.y) = elevQ (ps.map fun p => p.y) m := by
  unfold elevateBezierDegree elevQ
  rw [if_neg (by omega)]
  have e : ps.length - 1 = m + 1 := by omega
  rw [e]
  simp only [List.map_append, List.map_cons, List.map_nil, List.map_map]
  refine congrArg₂ _ (congrArg₂ _ ?_ ?_) ?_
  · exact (getD_map_len (fun p => p.y) ps 0 (by omega) ⟨0, 0, 1⟩).symm
  · refine List.map_congr_left fun i hi => ?_
    have hmem : 1 ≤ i ∧ i < 1 + (m + 1) := List.mem_range'_1.mp hi
    simp only [Function.comp]
    rw [getD_map_len (fun p => p.y) ps (i - 1) (by omega) ⟨0, 0, 1⟩,
      getD_map_len (fun p => p.y) ps i (by omega) ⟨0, 0, 1⟩]
    have hc : ((m + 1 : ℕ) : ℚ) + 1 = (m : ℚ) + 2 := by push_cast; ring
    rw [hc]
  · rw [getD_map_len (fun p => p.y) ps (m + 1) (by omega) ⟨0, 0, 1⟩]

theorem elevate_length (ps : List CPoint) (h2 : 2 ≤ ps.length) :
    (elevateBezierDegree ps).length = ps.length + 1 := by
  unfold elevateBezierDegree
  rw [if_neg (by omega)]
  simp only [List.length_append, List.length_cons, List.length_map,
    List.length_range', List.length_nil]
  omega

/-- C4: `elevateBezierDegree` turns `n+1` control points into `n+2`, keeps
the first and last control points, and the Bézier curve of the elevated
points coincides with the original curve at every parameter `t`. -/
theorem c4_elevateDegree_preserves_curve (ps : List CPoint) (h2 : 2 ≤ ps.length) :
    (elevateBezierDegree ps).length = ps.length + 1 ∧
    (elevateBezierDegree ps).head? = ps.head? ∧
    (elevateBezierDegree ps).getLast? = ps.getLast? ∧
    ∀ t, deCasteljauSimple (elevateBezierDegree ps) t = deCasteljauSimple ps t := by
  obtain ⟨m, hm⟩ : ∃ m, ps.length = m + 2 := ⟨ps.length - 2, by omega⟩
  have hne : ps ≠ [] := by
    intro h
    rw [h] at hm
    simp at hm
  have helevne : elevateBezierDegree ps ≠ [] := by
    intro h
    have := elevate_length ps h2
    rw [h] at this
    simp at this
  refine ⟨elevate_length ps h2, ?_, ?_, ?_⟩
  · unfold elevateBezierDegree
    rw [if_neg (by omega)]
    cases ps with
    | nil => exact absurd rfl hne
    | cons a r => simp
  · unfold elevateBezierDegree
    rw [if_neg (by omega)]
    rw [show (ps.getD 0 ⟨0, 0, 1⟩ :: ((List.range' 1 (ps.length - 1)).map fun (i : ℕ) =>
          let alpha : ℚ := (i : ℚ) / (((ps.length - 1 : ℕ) : ℚ) + 1)
          { x := alpha * (ps.getD (i - 1) ⟨0, 0, 1⟩).x
                   + (1 - alpha) * (ps.getD i ⟨0, 0, 1⟩).x,
            y := alpha * (ps.getD (i - 1) ⟨0, 0, 1⟩).y
                   + (1 - alpha) * (ps.getD i ⟨0, 0, 1⟩).y,
            weight := (ps.getD i ⟨0, 0, 1⟩).weight })
        ++ [ps.getD (ps.length - 1) ⟨0, 0, 1⟩])
      = (ps.getD 0 ⟨0, 0, 1⟩ :: ((List.range' 1 (ps.length - 1)).map fun (i : ℕ) =>
          let alpha : ℚ := (i : ℚ) / (((ps.length - 1 : ℕ) : ℚ) + 1)
          { x := alpha * (ps.getD (i - 1) ⟨0, 0, 1⟩).x
                   + (1 - alpha) * (ps.getD i ⟨0, 0, 1⟩).x,
            y := alpha * (ps.getD (i - 1) ⟨0, 0, 1⟩).y
                   + (1 - alpha) * (ps.getD i ⟨0, 0, 1⟩).y,
            weight := (ps.getD i ⟨0, 0, 1⟩).weight }))
        ++ [ps.getD (ps.length - 1) ⟨0, 0, 1⟩] from rfl]
    rw [List.getLast?_concat]
    rw [List.getD_eq_getElem ps ⟨0, 0, 1⟩ (by omega), ← List.getLast_eq_getElem ps hne]
    exact (List.getLast?_eq_getLast ps hne).symm
  · intro t
    rw [deCasteljauSimple_eq ps hne t, deCasteljauSimple_eq _ helevne t,
      elevate_map_x ps m hm, elevate_map_y ps m hm,
      bernQ_elevQ _ m (by rw [List.length_map, hm]) t,
      bernQ_elevQ _ m (by rw [List.length_map, hm]) t]

/-- Closed witness for `c4_elevateDegree_preserves_curve` at the concrete
quadratic `[(0,0), (50,100), (100,0)]`. -/
theorem c4_elevateDegree_preserves_curve_witness :
    2 ≤ ([(⟨0, 0, 1⟩ : CPoint), ⟨50, 100, 1⟩, ⟨100, 0, 1⟩]).length ∧
    ((elevateBezierDegree [(⟨0, 0, 1⟩ : CPoint), ⟨50, 100, 1⟩, ⟨100, 0, 1⟩]).length
        = [(⟨0, 0, 1⟩ : CPoint), ⟨50, 100, 1⟩, ⟨100, 0, 1⟩].length + 1 ∧
     (elevateBezierDegree [(⟨0, 0, 1⟩ : CPoint), ⟨50, 100, 1⟩, ⟨100, 0, 1⟩]).head?
        = [(⟨0, 0, 1⟩ : CPoint), ⟨50, 100, 1⟩, ⟨100, 0, 1⟩].head? ∧
     (elevateBezierDegree [(⟨0, 0, 1⟩ : CPoint), ⟨50, 100, 1⟩, ⟨100, 0, 1⟩]).getLast?
        = [(⟨0, 0, 1⟩ : CPoint), ⟨50, 100, 1⟩, ⟨100, 0, 1⟩].getLast? ∧
     ∀ t, deCasteljauSimple (elevateBezierDegree [(⟨0, 0, 1⟩ : CPoint), ⟨50, 100, 1⟩, ⟨100, 0, 1⟩]) t
        = deCasteljauSimple [(⟨0, 0, 1⟩ : CPoint), ⟨50, 100, 1⟩, ⟨100, 0, 1⟩] t) :=
  ⟨by decide,
   c4_elevateDegree_preserves_curve [⟨0, 0, 1⟩, ⟨50, 100, 1⟩, ⟨100, 0, 1⟩] (by decide)⟩

/-! ## C8: curve sampling -/

/-- C8 (amended): the part_002 sampler returns exactly `steps + 1` points,
the `i`-th being the selected evaluator at `t = i/steps`, and the empty list
for fewer than 2 control points.  The Questão 02 sampler, whose loop
`for (t = 0; t <= 1; t += 1/resolution)` visits `t = i/resolution` for
`i = 0, …, resolution` in exact arithmetic and then pushes one extra sample
at `t = 1`, returns `resolution + 2` points — the final point duplicated —
and the empty list for fewer than 2 control points. -/
theorem c8_sampling (ps : List CPoint) (qs : List Pt2) (steps res : ℕ) (u : Bool)
    (hps : 2 ≤ ps.length) (hqs : 2 ≤ qs.length) (h1 : 1 ≤ steps) (h2 : 1 ≤ res) :
    (generateBezierCurve ps steps u).length = steps + 1 ∧
    (∀ i, i ≤ steps →
      (generateBezierCurve ps steps u)[i]?
        = (if hasWeights ps && u then deCasteljau else deCasteljauSimple) ps
            ((i : ℚ) / (steps : ℚ))) ∧
    (∀ ps' : List CPoint, ps'.length < 2 → generateBezierCurve ps' steps u = []) ∧
    (generateBezierCurveQ2 qs res).length = res + 2 ∧
    (∀ i, i ≤ res →
      (generateBezierCurveQ2 qs res)[i]? = deCasteljauQ2 qs ((i : ℚ) / (res : ℚ))) ∧
    (generateBezierCurveQ2 qs res)[res + 1]? = deCasteljauQ2 qs 1 ∧
    (∀ qs' : List Pt2, qs'.length < 2 → generateBezierCurveQ2 qs' res = []) := by
  have hpne : ps ≠ [] := by
    intro h
    rw [h] at hps
    simp at hps
  have hqne : qs ≠ [] := by
    intro h
    rw [h] at hqs
    simp at hqs
  obtain ⟨g, hg⟩ : ∃ g : ℚ → Pt2,
      ∀ t, (if hasWeights ps && u then deCasteljau else deCasteljauSimple) ps t
        = some (g t) := by
    cases hbu : hasWeights ps && u with
    | false =>
        refine ⟨fun t => ⟨bernQ (ps.map fun p => p.x) t,
          bernQ (ps.map fun p => p.y) t⟩, fun t => ?_⟩
        simp only [Bool.false_eq_true, if_false]
        exact deCasteljauSimple_eq ps hpne t
    | true =>
        refine ⟨fun t => ⟨bernQ (ps.map fun p => p.x * wt p) t / bernQ (ps.map wt) t,
          bernQ (ps.map fun p => p.y * wt p) t / bernQ (ps.map wt) t⟩, fun t => ?_⟩
        simp only [if_true]
        exact deCasteljau_eq ps hpne t
  have hmap : generateBezierCurve ps steps u
      = (List.range (steps + 1)).map fun (i : ℕ) => g ((i : ℚ) / (steps : ℚ)) := by
    unfold generateBezierCurve
    rw [if_neg (by omega)]
    exact filterMap_id_map_some _ _ _ fun i _ => hg _
  have hq2map : generateBezierCurveQ2 qs res
      = ((List.range (res + 1)).map fun (i : ℕ) =>
          (⟨bernQ (qs.map Pt2.x) ((i : ℚ) / (res : ℚ)),
            bernQ (qs.map Pt2.y) ((i : ℚ) / (res : ℚ))⟩ : Pt2))
        ++ [⟨bernQ (qs.map Pt2.x) 1, bernQ (qs.map Pt2.y) 1⟩] := by
    unfold generateBezierCurveQ2
    rw [if_neg (by omega)]
    rw [filterMap_id_map_some _ _ _ fun i _ => deCasteljauQ2_eq qs hqne _]
    rw [deCasteljauQ2_eq qs hqne 1]
    rfl
  refine ⟨?_, ?_, ?_, ?_, ?_, ?_, ?_⟩
  · rw [hmap]
    simp
  · intro i hi
    rw [hmap, List.getElem?_map, List.getElem?_range (by omega)]
    simp only [Option.map_some']
    exact (hg _).symm
  · intro ps' h
    unfold generateBezierCurve
    rw [if_pos h]
  · rw [hq2map]
    simp
  · intro i hi
    rw [hq2map, List.getElem?_append_left (by simp; omega), List.getElem?_map,
      List.getElem?_range (by omega)]
    simp only [Option.map_some']
    exact (deCasteljauQ2_eq qs hqne _).symm
  · rw [hq2map, List.getElem?_append_right (by simp)]
    simp only [List.length_map, List.length_range]
    rw [show res + 1 - (res + 1) = 0 from by omega]
    rw [deCasteljauQ2_eq qs hqne 1]
    rfl
  · intro qs' h
    unfold generateBezierCurveQ2
    rw [if_pos h]

/-- Closed witness for `c8_sampling` at a concrete pair of two-point lists
with `steps = 2`, `res = 2`. -/
theorem c8_sampling_witness :
    2 ≤ ([(⟨0, 0, 1⟩ : CPoint), ⟨4, 2, 1⟩]).length ∧
    2 ≤ ([(⟨0, 0⟩ : Pt2), ⟨4, 2⟩]).length ∧
    (generateBezierCurve [(⟨0, 0, 1⟩ : CPoint), ⟨4, 2, 1⟩] 2 false).length = 2 + 1 ∧
    (generateBezierCurveQ2 [(⟨0, 0⟩ : Pt2), ⟨4, 2⟩] 2).length = 2 + 2 :=
  ⟨by decide, by decide,
   (c8_sampling [⟨0, 0, 1⟩, ⟨4, 2, 1⟩] [⟨0, 0⟩, ⟨4, 2⟩] 2 2 false
     (by decide) (by decide) (by decide) (by decide)).1,
   (c8_sampling [⟨0, 0, 1⟩, ⟨4, 2, 1⟩] [⟨0, 0⟩, ⟨4, 2⟩] 2 2 false
     (by decide) (by decide) (by decide) (by decide)).2.2.2.1⟩

/-- C8 counterexample: on two control points with `resolution = 1`, the
Questão 02 sampler returns 3 points rather than the `steps + 1 = 2` the
claim demands — the terminal sample is pushed twice. -/
theorem c8_q2_returns_extra_point :
    (generateBezierCurveQ2 [(⟨0, 0⟩ : Pt2), ⟨1, 0⟩] 1).length = 3 ∧ 3 ≠ 1 + 1 := by
  constructor
  · rfl
  · decide

/-! ## C10: the two clamped-uniform knot-vector constructors agree -/

/-- C10: for every `degree ≥ 1` and `n ≥ degree + 1` control points, the
Questão 01 and Questão 02 `generateKnotVector` implementations return the
same knot vector, of length `n + degree + 1`. -/
theorem c10_knot_vectors_agree (n degree : ℕ) (hd : 1 ≤ degree)
    (hn : degree + 1 ≤ n) :
    generateKnotVector n degree = generateKnotVectorQ2 n degree ∧
    (generateKnotVector n degree).length = n + degree + 1 := by
  have hlen1 : (generateKnotVector n degree).length = n + degree + 1 := by
    simp [generateKnotVector]
  refine ⟨?_, hlen1⟩
  have htn : (((n : ℤ) - (degree : ℤ)) - 1).toNat = n - degree - 1 := by omega
  have hlen2 : (generateKnotVectorQ2 n degree).length = n + degree + 1 := by
    simp only [generateKnotVectorQ2, List.length_append, List.length_replicate,
      List.length_map, List.length_range', htn]
    omega
  refine List.ext_getElem (by rw [hlen1, hlen2]) fun i h1 h2 => ?_
  have h1n : i < n + degree + 1 := hlen1 ▸ h1
  have hival : (generateKnotVector n degree)[i]
      = if i ≤ degree then 0
        else if n ≤ i then (n : ℚ) - (degree : ℚ)
        else (i : ℚ) - (degree : ℚ) := by
    simp [generateKnotVector]
  rw [hival]
  simp only [generateKnotVectorQ2, htn]
  rcases Nat.lt_or_ge i (degree + 1) with hc | hc
  · rw [List.getElem_append_left (by simp only [List.length_append,
      List.length_replicate, List.length_map, List.length_range']; omega),
      List.getElem_append_left (by simp only [List.length_replicate]; omega),
      List.getElem_replicate]
    rw [if_pos (by omega)]
  · rcases Nat.lt_or_ge i n with hc2 | hc2
    · rw [List.getElem_append_left (by simp only [List.length_append,
        List.length_replicate, List.length_map, List.length_range']; omega),
        List.getElem_append_right (by simp only [List.length_replicate]; omega)]
      simp only [List.length_replicate]
      rw [List.getElem_map, List.getElem_range']
      rw [if_neg (by omega), if_neg (by omega)]
      have he : 1 + 1 * (i - (degree + 1)) = i - degree := by omega
      rw [he]
      push_cast [Nat.cast_sub (by omega : degree ≤ i)]
      ring
    · rw [List.getElem_append_right (by simp only [List.length_append,
        List.length_replicate, List.length_map, List.length_range']; omega),
        List.getElem_replicate]
      rw [if_neg (by omega), if_pos (by omega)]
      push_cast
      ring

/-- Closed witness for `c10_knot_vectors_agree` at `n = 5`, `degree = 3`. -/
theorem c10_knot_vectors_agree_witness :
    1 ≤ 3 ∧ 3 + 1 ≤ 5 ∧
    (generateKnotVector 5 3 = generateKnotVectorQ2 5 3 ∧
     (generateKnotVector 5 3).length = 5 + 3 + 1) :=
  ⟨by decide, by decide, c10_knot_vectors_agree 5 3 (by decide) (by decide)⟩

/-! ## C1: partition of unity fails at the right end of the domain -/

/-- C1 (failing input): for the clamped-uniform knot vector of `n = 2`
control points at `degree = 1` (knots `[0, 0, 1, 1]`), the basis functions
sum to `0`, not `1`, at the terminal domain parameter `t = knots[n] = 1`.
The degree-0 terminal special case targets index `knots.length - 2`, which
the zero-denominator guards make unreachable from any top-level basis index,
so every `bSplineBasis i degree` vanishes at `t = knots[n]`. -/
theorem c1_partition_of_unity_fails_at_tmax :
    generateKnotVector 2 1 = [0, 0, 1, 1] ∧
    ((List.range 2).map fun i => bSplineBasis i 1 1 (generateKnotVector 2 1)).sum
      = 0 ∧
    ((0 : ℚ) ≠ 1) := by
  have hknots : generateKnotVector 2 1 = [0, 0, 1, 1] := by
    norm_num [generateKnotVector, List.range_succ]
  refine ⟨hknots, ?_, by norm_num⟩
  rw [hknots]
  norm_num [bSplineBasis, kn, List.range_succ]

/-! ## C3: knot insertion does not preserve the curve -/

theorem findInsertPos_eval : findInsertPos [0, 0, 1, 1] (1 / 2) 1 = 2 := by
  rw [findInsertPos]
  norm_num [kn]
  rw [findInsertPos]
  norm_num [kn]


/-- C3 (failing input): inserting the knot `1/2` into the degree-1 B-spline
on control points `[(0,0), (1,0)]` with knots `[0, 0, 1, 1]` returns only 2
control points (instead of 3) together with 5 knots, and the refined curve
no longer matches the original: at `t = 3/4` the original curve gives
`(3/4, 0)` while the refined data evaluates to `(1/2, 0)`. -/
theorem c3_insertKnot_changes_curve :
    insertKnot [(⟨0, 0⟩ : Pt2), ⟨1, 0⟩] [0, 0, 1, 1] 1 (1 / 2)
      = ([⟨0, 0⟩, ⟨1 / 2, 0⟩], [0, 0, 1 / 2, 1, 1]) ∧
    evaluateBSpline [(⟨0, 0⟩ : Pt2), ⟨1, 0⟩] (3 / 4) 1 [0, 0, 1, 1]
      = some ⟨3 / 4, 0⟩ ∧
    evaluateBSpline [(⟨0, 0⟩ : Pt2), ⟨1 / 2, 0⟩] (3 / 4) 1 [0, 0, 1 / 2, 1, 1]
      = some ⟨1 / 2, 0⟩ ∧
    (some (⟨1 / 2, 0⟩ : Pt2) ≠ some (⟨3 / 4, 0⟩ : Pt2)) := by
  refine ⟨?_,
    by norm_num [evaluateBSpline, bSplineBasis, kn, List.range_succ],
    by norm_num [evaluateBSpline, bSplineBasis, kn, List.range_succ],
    by norm_num⟩
  simp only [insertKnot, findInsertPos_eval]
  norm_num [kn, List.range_succ]

/-! ## C9: the two point finders scan in opposite directions -/

/-- The indices of the points within `threshold` of `(x, y)`, in increasing
order. -/
def hitIdx (pts : List Pt2) (x y threshold : ℚ) : List ℕ :=
  (List.range pts.length).filter fun i => withinDist (pts.getD i ⟨0, 0⟩) x y threshold

theorem findPointNearAux_eval (pts : List Pt2) (x y thr : ℚ) (k : ℕ) :
    findPointNearAux pts x y thr k
      = (((List.range k).filter fun i =>
          withinDist (pts.getD i ⟨0, 0⟩) x y thr).getLast?).elim (-1)
          (fun i => (i : ℤ)) := by
  induction k with
  | zero => rfl
  | succ k ih =>
      rw [List.range_succ, List.filter_append, List.filter_singleton]
      by_cases h : withinDist (pts.getD k ⟨0, 0⟩) x y thr
      · rw [findPointNearAux, if_pos h, h]
        simp [List.getLast?_concat]
      · rw [findPointNearAux, if_neg h, ih]
        rw [Bool.not_eq_true] at h
        rw [h]
        simp

theorem findPointAtAux_eval (x y thr : ℚ) :
    ∀ (l : List Pt2) (i : ℕ),
      findPointAtAux x y thr l i
        = (((List.range l.length).filter fun j =>
            withinDist (l.getD j ⟨0, 0⟩) x y thr).head?).elim (-1)
            (fun j => ((i + j : ℕ) : ℤ)) := by
  intro l
  induction l with
  | nil => intro i; rfl
  | cons p rest ih =>
      intro i
      rw [List.length_cons, List.range_succ_eq_map]
      rw [show (List.filter (fun j => withinDist ((p :: rest).getD j ⟨0, 0⟩) x y thr)
            (0 :: List.map Nat.succ (List.range rest.length)))
          = (if withinDist p x y thr
              then 0 :: List.filter
                (fun j => withinDist ((p :: rest).getD j ⟨0, 0⟩) x y thr)
                (List.map Nat.succ (List.range rest.length))
              else List.filter
                (fun j => withinDist ((p :: rest).getD j ⟨0, 0⟩) x y thr)
                (List.map Nat.succ (List.range rest.length))) from by
        rw [List.filter_cons]
        simp only [List.getD_cons_zero]]
      rw [List.filter_map]
      by_cases h : withinDist p x y thr
      · rw [if_pos h, findPointAtAux, if_pos h]
        simp
      · rw [if_neg h, findPointAtAux, if_neg h, ih (i + 1)]
        rw [List.head?_map]
        have hc : (fun j => withinDist ((p :: rest).getD j ⟨0, 0⟩) x y thr) ∘ Nat.succ
            = fun j => withinDist (rest.getD j ⟨0, 0⟩) x y thr := by
          funext j
          simp [List.getD_cons_succ]
        rw [hc]
        cases hh : (List.filter (fun j => withinDist (rest.getD j ⟨0, 0⟩) x y thr)
            (List.range rest.length)).head? with
        | none => rfl
        | some j =>
            simp only [Option.map_some', Option.elim]
            congr 1
            omega

/-- C9 (amended): `ControlPointsManager.findPointNear` scans from the
highest index down, so it returns the **greatest** index within `threshold`
(or `-1` when none is); `ProfilePoints.findPointAt` scans from index `0`
up, so it returns the **least** such index (or `-1`).  On overlapping
points the two finders therefore disagree: the most recently added point
wins only in Questão 01. -/
theorem c9_find_near_amended (pts : List Pt2) (x y threshold : ℚ) :
    findPointNear pts x y threshold
      = ((hitIdx pts x y threshold).getLast?).elim (-1) (fun i => (i : ℤ)) ∧
    findPointAt pts x y threshold
      = ((hitIdx pts x y threshold).head?).elim (-1) (fun i => (i : ℤ)) := by
  constructor
  · exact findPointNearAux_eval pts x y threshold pts.length
  · rw [findPointAt, findPointAtAux_eval x y threshold pts 0]
    unfold hitIdx
    cases hh : (List.filter (fun i => withinDist (pts.getD i ⟨0, 0⟩) x y threshold)
        (List.range pts.length)).head? with
    | none => rfl
    | some j =>
        simp only [Option.elim]
        congr 1
        omega

/-- C9 counterexample: with two coincident points, `findPointAt` (Questão
02) returns index 0 — the **earliest** point — whereas the claim's
"highest index down to the lowest" scan would return 1, as
`findPointNear` (Questão 01) does; index 1 is within threshold. -/
theorem c9_findPointAt_scans_bottom_up :
    findPointAt [(⟨0, 0⟩ : Pt2), ⟨0, 0⟩] 0 0 10 = 0 ∧
    findPointNear [(⟨0, 0⟩ : Pt2), ⟨0, 0⟩] 0 0 10 = 1 ∧
    withinDist (⟨0, 0⟩ : Pt2) 0 0 10 = true ∧
    ((0 : ℤ) ≠ 1) := by
  have hw : withinDist (⟨0, 0⟩ : Pt2) 0 0 10 = true := by
    rw [withinDist]
    norm_num
  refine ⟨?_, ?_, hw, by norm_num⟩
  · rw [findPointAt, findPointAtAux, if_pos hw]
    simp
  · rw [findPointNear, findPointNearAux_eval]
    simp [List.range_succ, hw]

/-! ## C6 and C7: revolution-surface mesh invariants -/

theorem accumFace_length (acc : List V3) (f : Face) (nrm : V3) :
    (accumFace acc f nrm).length = acc.length := by
  simp [accumFace]

theorem accumNormals_length (vertices : List V3) (faces : List Face) :
    (accumNormals vertices faces).length = vertices.length := by
  unfold accumNormals
  have h : ∀ (fs : List Face) (acc : List V3),
      (fs.foldl (fun acc f => accumFace acc f (faceCross vertices f)) acc).length
        = acc.length := by
    intro fs
    induction fs with
    | nil => intro acc; rfl
    | cons f fs ih =>
        intro acc
        rw [List.foldl_cons, ih, accumFace_length]
  rw [h, List.length_map]

theorem calculateNormals_length (vertices : List V3) (faces : List Face) :
    (calculateNormals vertices faces).length = vertices.length := by
  rw [calculateNormals, List.length_map, accumNormals_length]

theorem V3_sq_nonneg (v : V3) : 0 ≤ v.sq := by
  unfold V3.sq
  positivity

theorem normalizeV_of_not_pos (v : V3) (h : ¬ v.len > 0) : v = V3.zero := by
  have hsq : (0 : ℝ) ≤ v.sq := V3_sq_nonneg v
  have hlen0 : v.len = 0 := le_antisymm (not_lt.mp h) (Real.sqrt_nonneg _)
  have hsq0 : v.sq = 0 := (Real.sqrt_eq_zero hsq).mp hlen0
  obtain ⟨vx, vy, vz⟩ := v
  unfold V3.sq at hsq0
  simp only at hsq0
  have hx : vx = 0 := by nlinarith [sq_nonneg vx, sq_nonneg vy, sq_nonneg vz]
  have hy : vy = 0 := by nlinarith [sq_nonneg vx, sq_nonneg vy, sq_nonneg vz]
  have hz : vz = 0 := by nlinarith [sq_nonneg vx, sq_nonneg vy, sq_nonneg vz]
  rw [V3.zero, hx, hy, hz]

theorem normalizeV_zero : normalizeV V3.zero = V3.zero := by
  unfold normalizeV
  split
  · next h =>
      exfalso
      rw [V3.len, V3.zero, V3.sq] at h
      norm_num at h
  · rfl

theorem normalizeV_unit (v : V3) (h : v.len > 0) : (normalizeV v).len = 1 := by
  have hsq : (0 : ℝ) ≤ v.sq := V3_sq_nonneg v
  have hl2 : v.len ^ 2 = v.sq := Real.sq_sqrt hsq
  have hlne : v.len ≠ 0 := ne_of_gt h
  have hsqpos : v.sq ≠ 0 := by
    intro h0
    rw [V3.len, h0, Real.sqrt_zero] at h
    exact lt_irrefl 0 h
  rw [normalizeV, if_pos h]
  show Real.sqrt ((⟨v.x / v.len, v.y / v.len, v.z / v.len⟩ : V3).sq) = 1
  have hval : (⟨v.x / v.len, v.y / v.len, v.z / v.len⟩ : V3).sq = v.sq / v.len ^ 2 := by
    unfold V3.sq
    simp only
    field_simp
  rw [hval, hl2, div_self hsqpos, Real.sqrt_one]

theorem generate_vertices_length (s : Surface) (profile : List PtR) (ax : Axis)
    (angle : ℝ) (sub : ℕ) (h2 : 2 ≤ profile.length) :
    (generate s profile ax angle sub).vertices.length = (sub + 1) * profile.length := by
  unfold generate
  rw [if_neg (by omega)]
  simp only [List.length_flatMap, List.length_map]
  have hconst : (List.map (List.length ∘ fun (i : ℕ) =>
      profile.map fun p =>
        rotatePoint p ((i : ℝ) * (angle * Real.pi / 180 / (sub : ℝ))) ax)
      (List.range (sub + 1)))
      = List.replicate (sub + 1) profile.length := by
    rw [show (List.length ∘ fun (i : ℕ) =>
        profile.map fun p =>
          rotatePoint p ((i : ℝ) * (angle * Real.pi / 180 / (sub : ℝ))) ax)
        = Function.const ℕ profile.length from by
      funext i
      simp [Function.const]]
    rw [List.map_const, List.length_range]
  rw [hconst, List.sum_replicate, smul_eq_mul]

theorem generate_faces_eq (s : Surface) (profile : List PtR) (ax : Axis)
    (angle : ℝ) (sub : ℕ) (h2 : 2 ≤ profile.length) :
    (generate s profile ax angle sub).faces
      = (List.range sub).flatMap fun i =>
          (List.range (profile.length - 1)).flatMap fun j =>
            [(i * profile.length + j, i * profile.length + j + profile.length,
              i * profile.length + j + 1),
             (i * profile.length + j + 1, i * profile.length + j + profile.length,
              i * profile.length + j + profile.length + 1)] := by
  unfold generate
  rw [if_neg (by omega)]

theorem generate_faces_length (s : Surface) (profile : List PtR) (ax : Axis)
    (angle : ℝ) (sub : ℕ) (h2 : 2 ≤ profile.length) :
    (generate s profile ax angle sub).faces.length = 2 * sub * (profile.length - 1) := by
  rw [generate_faces_eq s profile ax angle sub h2]
  simp only [List.length_flatMap, List.length_map]
  have hinner : ∀ i : ℕ, ((List.map (List.length ∘ fun j =>
      [(i * profile.length + j, i * profile.length + j + profile.length,
        i * profile.length + j + 1),
       (i * profile.length + j + 1, i * profile.length + j + profile.length,
        i * profile.length + j + profile.length + 1)])
      (List.range (profile.length - 1)))).sum = 2 * (profile.length - 1) := by
    intro i
    rw [show (List.length ∘ fun j =>
        [(i * profile.length + j, i * profile.length + j + profile.length,
          i * profile.length + j + 1),
         (i * profile.length + j + 1, i * profile.length + j + profile.length,
          i * profile.length + j + profile.length + 1)])
        = Function.const ℕ 2 from by
      funext j
      simp [Function.const]]
    rw [List.map_const, List.length_range, List.sum_replicate, smul_eq_mul]
    ring
  have houter : (List.map (List.length ∘ fun i =>
      (List.range (profile.length - 1)).flatMap fun j =>
        [(i * profile.length + j, i * profile.length + j + profile.length,
          i * profile.length + j + 1),
         (i * profile.length + j + 1, i * profile.length + j + profile.length,
          i * profile.length + j + profile.length + 1)])
      (List.range sub))
      = List.replicate sub (2 * (profile.length - 1)) := by
    rw [show (List.length ∘ fun i =>
        (List.range (profile.length - 1)).flatMap fun j =>
          [(i * profile.length + j, i * profile.length + j + profile.length,
            i * profile.length + j + 1),
           (i * profile.length + j + 1, i * profile.length + j + profile.length,
            i * profile.length + j + profile.length + 1)])
        = Function.const ℕ (2 * (profile.length - 1)) from by
      funext i
      simp only [Function.comp, Function.const, List.length_flatMap]
      exact hinner i]
    rw [List.map_const, List.length_range]
  rw [houter, List.sum_replicate, smul_eq_mul]
  ring

theorem generate_faces_bound (s : Surface) (profile : List PtR) (ax : Axis)
    (angle : ℝ) (sub : ℕ) (h2 : 2 ≤ profile.length) :
    ∀ f ∈ (generate s profile ax angle sub).faces,
      f.1 < (sub + 1) * profile.length ∧
      f.2.1 < (sub + 1) * profile.length ∧
      f.2.2 < (sub + 1) * profile.length := by
  intro f hf
  rw [generate_faces_eq s profile ax angle sub h2] at hf
  rw [List.mem_flatMap] at hf
  obtain ⟨i, hi, hf⟩ := hf
  rw [List.mem_flatMap] at hf
  obtain ⟨j, hj, hf⟩ := hf
  rw [List.mem_range] at hi hj
  have hiL : i * profile.length + profile.length ≤ sub * profile.length := by
    have h := Nat.mul_le_mul_right profile.length (show i + 1 ≤ sub by omega)
    rwa [Nat.succ_mul] at h
  have hSL : (sub + 1) * profile.length = sub * profile.length + profile.length := by
    rw [Nat.succ_mul]
  rw [List.mem_cons, List.mem_singleton] at hf
  set A := i * profile.length with hA
  set B := sub * profile.length with hB
  rcases hf with hf | hf
  · subst hf
    rw [hSL]
    refine ⟨?_, ?_, ?_⟩ <;> dsimp only <;> omega
  · subst hf
    rw [hSL]
    refine ⟨?_, ?_, ?_⟩ <;> dsimp only <;> omega

theorem generate_normals_length (s : Surface) (profile : List PtR) (ax : Axis)
    (angle : ℝ) (sub : ℕ) (h2 : 2 ≤ profile.length) :
    (generate s profile ax angle sub).normals.length
      = (generate s profile ax angle sub).vertices.length := by
  unfold generate
  rw [if_neg (by omega)]
  exact calculateNormals_length _ _

theorem generate_normals_spec (s : Surface) (profile : List PtR) (ax : Axis)
    (angle : ℝ) (sub : ℕ) (h2 : 2 ≤ profile.length) :
    ∀ i, i < (generate s profile ax angle sub).normals.length →
      ((generate s profile ax angle sub).normals.getD i V3.zero).len = 1 ∨
      ((accumNormals (generate s profile ax angle sub).vertices
          (generate s profile ax angle sub).faces).getD i V3.zero = V3.zero ∧
       (generate s profile ax angle sub).normals.getD i V3.zero = V3.zero) := by
  have hnormals : (generate s profile ax angle sub).normals
      = calculateNormals (generate s profile ax angle sub).vertices
          (generate s profile ax angle sub).faces := by
    unfold generate
    rw [if_neg (by omega)]
  intro i hi
  rw [hnormals, calculateNormals]
  rw [show (V3.zero : V3) = normalizeV V3.zero from normalizeV_zero.symm,
    List.getD_map _ _ normalizeV, normalizeV_zero]
  by_cases h : ((accumNormals (generate s profile ax angle sub).vertices
      (generate s profile ax angle sub).faces).getD i V3.zero).len > 0
  · left
    exact normalizeV_unit _ h
  · right
    have hz := normalizeV_of_not_pos _ h
    rw [hz, normalizeV_zero]
    exact ⟨rfl, rfl⟩

/-- C6: a successful `generate` on a profile of `L ≥ 2` points with
`sub ≥ 1` subdivisions (any sweep angle, in particular 360°) produces
`(sub+1) * L` vertices and `2 * sub * (L-1)` triangular faces; afterwards
`normals` has one entry per vertex, every face index is in range, and each
vertex normal is unit length unless its accumulated normal was the zero
vector, in which case it stays zero. -/
theorem c6_revolution_mesh_invariants (s : Surface) (profile : List PtR)
    (ax : Axis) (angle : ℝ) (sub : ℕ) (h2 : 2 ≤ profile.length) (hs : 1 ≤ sub) :
    (generate s profile ax angle sub).vertices.length = (sub + 1) * profile.length ∧
    (generate s profile ax angle sub).faces.length = 2 * sub * (profile.length - 1) ∧
    (generate s profile ax angle sub).normals.length
      = (generate s profile ax angle sub).vertices.length ∧
    (∀ f ∈ (generate s profile ax angle sub).faces,
      f.1 < (generate s profile ax angle sub).vertices.length ∧
      f.2.1 < (generate s profile ax angle sub).vertices.length ∧
      f.2.2 < (generate s profile ax angle sub).vertices.length) ∧
    (∀ i, i < (generate s profile ax angle sub).normals.length →
      ((generate s profile ax angle sub).normals.getD i V3.zero).len = 1 ∨
      ((accumNormals (generate s profile ax angle sub).vertices
          (generate s profile ax angle sub).faces).getD i V3.zero = V3.zero ∧
       (generate s profile ax angle sub).normals.getD i V3.zero = V3.zero)) := by
  refine ⟨generate_vertices_length s profile ax angle sub h2,
    generate_faces_length s profile ax angle sub h2,
    generate_normals_length s profile ax angle sub h2, ?_,
    generate_normals_spec s profile ax angle sub h2⟩
  intro f hf
  rw [generate_vertices_length s profile ax angle sub h2]
  exact generate_faces_bound s profile ax angle sub h2 f hf

/-- Closed witness for `c6_revolution_mesh_invariants` on the spec's
scenario-C profile, axis `y`, 360°, 4 subdivisions. -/
theorem c6_revolution_mesh_invariants_witness :
    2 ≤ ([(⟨10, 0⟩ : PtR), ⟨10, 5⟩, ⟨5, 10⟩]).length ∧ 1 ≤ 4 ∧
    ((generate Surface.empty [(⟨10, 0⟩ : PtR), ⟨10, 5⟩, ⟨5, 10⟩] Axis.y 360 4).vertices.length
        = (4 + 1) * [(⟨10, 0⟩ : PtR), ⟨10, 5⟩, ⟨5, 10⟩].length ∧
     (generate Surface.empty [(⟨10, 0⟩ : PtR), ⟨10, 5⟩, ⟨5, 10⟩] Axis.y 360 4).faces.length
        = 2 * 4 * ([(⟨10, 0⟩ : PtR), ⟨10, 5⟩, ⟨5, 10⟩].length - 1) ∧
     (generate Surface.empty [(⟨10, 0⟩ : PtR), ⟨10, 5⟩, ⟨5, 10⟩] Axis.y 360 4).normals.length
        = (generate Surface.empty [(⟨10, 0⟩ : PtR), ⟨10, 5⟩, ⟨5, 10⟩] Axis.y 360 4).vertices.length ∧
     (∀ f ∈ (generate Surface.empty [(⟨10, 0⟩ : PtR), ⟨10, 5⟩, ⟨5, 10⟩] Axis.y 360 4).faces,
        f.1 < (generate Surface.empty [(⟨10, 0⟩ : PtR), ⟨10, 5⟩, ⟨5, 10⟩] Axis.y 360 4).vertices.length ∧
        f.2.1 < (generate Surface.empty [(⟨10, 0⟩ : PtR), ⟨10, 5⟩, ⟨5, 10⟩] Axis.y 360 4).vertices.length ∧
        f.2.2 < (generate Surface.empty [(⟨10, 0⟩ : PtR), ⟨10, 5⟩, ⟨5, 10⟩] Axis.y 360 4).vertices.length) ∧
     (∀ i, i < (generate Surface.empty [(⟨10, 0⟩ : PtR), ⟨10, 5⟩, ⟨5, 10⟩] Axis.y 360 4).normals.length →
        ((generate Surface.empty [(⟨10, 0⟩ : PtR), ⟨10, 5⟩, ⟨5, 10⟩] Axis.y 360 4).normals.getD i V3.zero).len = 1 ∨
        ((accumNormals (generate Surface.empty [(⟨10, 0⟩ : PtR), ⟨10, 5⟩, ⟨5, 10⟩] Axis.y 360 4).vertices
            (generate Surface.empty [(⟨10, 0⟩ : PtR), ⟨10, 5⟩, ⟨5, 10⟩] Axis.y 360 4).faces).getD i V3.zero = V3.zero ∧
         (generate Surface.empty [(⟨10, 0⟩ : PtR), ⟨10, 5⟩, ⟨5, 10⟩] Axis.y 360 4).normals.getD i V3.zero = V3.zero))) :=
  ⟨by decide, by decide,
   c6_revolution_mesh_invariants Surface.empty [⟨10, 0⟩, ⟨10, 5⟩, ⟨5, 10⟩]
     Axis.y 360 4 (by decide) (by decide)⟩

/-- C7 (amended): calling `generate` with fewer than 2 profile points logs a
warning and returns **before** `this.clear()`, so the surface state is left
exactly as it was — a fresh surface stays empty, but a previously generated
mesh is retained rather than cleared. -/
theorem c7_short_profile_leaves_state (s : Surface) (profile : List PtR)
    (ax : Axis) (angle : ℝ) (sub : ℕ) (h : profile.length < 2) :
    generate s profile ax angle sub = s := by
  unfold generate
  rw [if_pos h]

/-- Closed witness for `c7_short_profile_leaves_state`: a fresh surface with
a one-point profile stays empty. -/
theorem c7_short_profile_leaves_state_witness :
    ([(⟨0, 0⟩ : PtR)]).length < 2 ∧
    generate Surface.empty [(⟨0, 0⟩ : PtR)] Axis.y 360 4 = Surface.empty :=
  ⟨by decide,
   c7_short_profile_leaves_state Surface.empty [⟨0, 0⟩] Axis.y 360 4 (by decide)⟩

/-- C7 counterexample: after a successful `generate` (15 vertices), a second
call with a one-point profile leaves all 15 vertices in place — the surface
is *not* in the Empty state as the claim asserts. -/
theorem c7_failed_generate_keeps_old_mesh :
    (generate (generate Surface.empty [(⟨10, 0⟩ : PtR), ⟨10, 5⟩, ⟨5, 10⟩] Axis.y 360 4)
        [(⟨0, 0⟩ : PtR)] Axis.y 360 4).vertices.length = 15 ∧ (15 : ℕ) ≠ 0 := by
  constructor
  · have hshort : generate (generate Surface.empty
        [(⟨10, 0⟩ : PtR), ⟨10, 5⟩, ⟨5, 10⟩] Axis.y 360 4)
        [(⟨0, 0⟩ : PtR)] Axis.y 360 4
        = generate Surface.empty [(⟨10, 0⟩ : PtR), ⟨10, 5⟩, ⟨5, 10⟩] Axis.y 360 4 := by
      unfold generate
      rw [if_pos (by decide)]
    rw [hshort, generate_vertices_length Surface.empty
      [(⟨10, 0⟩ : PtR), ⟨10, 5⟩, ⟨5, 10⟩] Axis.y 360 4 (by decide)]
    decide
  · decide

end CG
